import Mathlib

/-!
Verification of the RecipeApp core (src/Recipe_App_Git.py): a shallow
embedding of the shopping-list organizer (`erstelle_einkaufsliste`), the
step normalizer (`erstelle_zubereitung`), the pydantic schema validation
(`Zutat`, `RezeptAusgabe`) and the submission callback (`rezept_erstellen`),
together with theorems settling the specification's claims.

Modelling conventions: Python `float` prices are modelled as exact
rationals `ℚ`; Python `str` is modelled as Lean `String` where the string
is only compared for equality, and as `List Char` where character-level
operations (strip, splitlines, the numbering regex) matter; the Dash/HTML
layer is modelled by the data each rendered node carries.
-/

namespace RecipeApp

/-- The canonical supermarket walk order (`SUPERMARKT_REIHENFOLGE`). -/
def SUPERMARKT_REIHENFOLGE : List String :=
  [ "Obst & Gemüse",
    "Backwaren",
    "Milchprodukte & Eier",
    "Fleisch & Wurst",
    "Fisch & Meeresfrüchte",
    "Tiefkühlkost",
    "Konserven & Fertiggerichte",
    "Nudeln, Reis & Getreide",
    "Gewürze, Öle & Essig",
    "Backen & Süßes",
    "Getränke",
    "Sonstiges" ]

/-- Department to display icon mapping (`ABTEILUNG_ICONS`). -/
def ABTEILUNG_ICONS : List (String × String) :=
  [ ("Obst & Gemüse", "🥬"),
    ("Backwaren", "🍞"),
    ("Milchprodukte & Eier", "🥚"),
    ("Fleisch & Wurst", "🥩"),
    ("Fisch & Meeresfrüchte", "🐟"),
    ("Tiefkühlkost", "🧊"),
    ("Konserven & Fertiggerichte", "🥫"),
    ("Nudeln, Reis & Getreide", "🍝"),
    ("Gewürze, Öle & Essig", "🧂"),
    ("Backen & Süßes", "🍰"),
    ("Getränke", "🥤"),
    ("Sonstiges", "🛒") ]

/-- One ingredient (`class Zutat`); the float price is modelled as `ℚ`. -/
structure Zutat where
  name : String
  menge : String
  abteilung : String
  preis_eur : ℚ
deriving DecidableEq, Repr

/-- The full recipe record (`class RezeptAusgabe`). Pydantic `int` fields
are unbounded, hence `Int`. -/
structure RezeptAusgabe where
  titel : String
  kurzbeschreibung : String
  zutaten : List Zutat
  zubereitung : String
  vorbereitungszeit : Int
  kochzeit : Int
  gesamtzeit : Int
  portionen : Int
  schwierigkeit : String
deriving DecidableEq, Repr

/-- Icon lookup `ABTEILUNG_ICONS.get(abteilung, "🛒")`. -/
def hole_icon (abteilung : String) : String :=
  match ABTEILUNG_ICONS.lookup abteilung with
  | some icon => icon
  | none => "🛒"

/-- The sort key of line 106-108: `SUPERMARKT_REIHENFOLGE.index(x[0]) if
x[0] in SUPERMARKT_REIHENFOLGE else 99`. -/
def sortKey (abteilung : String) : Nat :=
  if abteilung ∈ SUPERMARKT_REIHENFOLGE then SUPERMARKT_REIHENFOLGE.indexOf abteilung
  else 99

/-- One step of the grouping loop `gruppen.setdefault(z.abteilung, []).append(z)`
on an insertion-ordered association list (Python dict preserves first-insertion
key order; `append` adds at the end of the bucket). -/
def addZutat (gruppen : List (String × List Zutat)) (z : Zutat) :
    List (String × List Zutat) :=
  match gruppen with
  | [] => [(z.abteilung, [z])]
  | (a, zs) :: rest =>
      if a = z.abteilung then (a, zs ++ [z]) :: rest
      else (a, zs) :: addZutat rest z

/-- The grouping loop of lines 98-100. -/
def gruppiere (zutaten : List Zutat) : List (String × List Zutat) :=
  zutaten.foldl addZutat []

/-- Lines 103-110: `sorted(gruppen.items(), key=...)`. Python's `sorted` is a
stable sort by the key; `List.mergeSort` is likewise stable. -/
def sortiere_gruppen (zutaten : List Zutat) : List (String × List Zutat) :=
  (gruppiere zutaten).mergeSort (fun x y => decide (sortKey x.1 ≤ sortKey y.1))

/-- One rendered table row of the shopping list: a department header row
(lines 118-131), an article row (lines 134-144), or the grand-total row
(lines 147-158), each modelled by the data it carries. -/
inductive Zeile where
  | kopf (icon : String) (abteilung : String)
  | artikel (name : String) (menge : String) (preis : ℚ)
  | gesamtzeile (gesamt : ℚ)
deriving DecidableEq, Repr

/-- The body of `erstelle_einkaufsliste` (lines 95-176): the loop over the
sorted groups appends a header row per department and an article row per
ingredient while accumulating `gesamt += z.preis_eur`, then appends the
grand-total row. The returned value models the table body. -/
def erstelle_einkaufsliste (zutaten : List Zutat) : List Zeile :=
  let sortierte := sortiere_gruppen zutaten
  let ergebnis := sortierte.foldl
    (fun (acc : List Zeile × ℚ) g =>
      g.2.foldl
        (fun (a : List Zeile × ℚ) z =>
          (a.1 ++ [Zeile.artikel z.name z.menge z.preis_eur], a.2 + z.preis_eur))
        (acc.1 ++ [Zeile.kopf (hole_icon g.1) g.1], acc.2))
    ([], 0)
  ergebnis.1 ++ [Zeile.gesamtzeile ergebnis.2]

/-! Step normalizer (`erstelle_zubereitung`, lines 179-186), modelled at the
character level. -/

/-- Remove leading whitespace. -/
def lstrip (s : List Char) : List Char :=
  s.dropWhile Char.isWhitespace

/-- Remove trailing whitespace. -/
def rstrip (s : List Char) : List Char :=
  (s.reverse.dropWhile Char.isWhitespace).reverse

/-- Python `str.strip()` with no argument: remove leading and trailing
whitespace. -/
def strip (s : List Char) : List Char :=
  rstrip (lstrip s)

/-- Split on newline characters, keeping empty pieces (one piece more than
there are newlines). -/
def splitNL : List Char → List (List Char)
  | [] => [[]]
  | c :: cs =>
      if c = '\n' then [] :: splitNL cs
      else
        match splitNL cs with
        | [] => [[c]]
        | l :: ls => (c :: l) :: ls

/-- Python `str.splitlines()` restricted to `'\n'` separators: like `splitNL`
but an empty final piece (empty string, or trailing newline) is dropped. -/
def splitlines (s : List Char) : List (List Char) :=
  let p := splitNL s
  if p.getLast? = some [] then p.dropLast else p

/-- The substitution `re.sub(r"^\d+[\.\)]\s*", "", schritt)` (line 184):
remove one leading run of digits followed by `'.'` or `')'` and any
following whitespace; leave the string unchanged when the pattern does not
match at the start. -/
def entferne_nummerierung (s : List Char) : List Char :=
  match s.dropWhile Char.isDigit with
  | c :: rest =>
      if (s.takeWhile Char.isDigit) ≠ [] ∧ (c = '.' ∨ c = ')') then
        rest.dropWhile Char.isWhitespace
      else s
  | [] => s

/-- Lines 181-186: `schritte = [s.strip() for s in zubereitung.splitlines()
if s.strip()]`, then each step is cleaned by `entferne_nummerierung`; the
result models the list of `html.Li` contents. -/
def erstelle_zubereitung (zubereitung : List Char) : List (List Char) :=
  let schritte := ((splitlines zubereitung).map strip).filter (fun l => decide (l ≠ []))
  schritte.map entferne_nummerierung

/-! Derived quantities of the shopping list used in the statements. -/

/-- The subtotal of one department bucket: sum of `preis_eur` over its items. -/
def gruppensumme (g : String × List Zutat) : ℚ :=
  (g.2.map Zutat.preis_eur).sum

/-- The rows rendered for one department bucket: the header row followed by
one article row per ingredient. -/
def gruppenzeilen (g : String × List Zutat) : List Zeile :=
  Zeile.kopf (hole_icon g.1) g.1 ::
    g.2.map (fun z => Zeile.artikel z.name z.menge z.preis_eur)

/-! Closed forms of the two accumulation loops. -/

lemma foldl_artikel (zs : List Zutat) (a : List Zeile × ℚ) :
    zs.foldl
      (fun (a : List Zeile × ℚ) z =>
        (a.1 ++ [Zeile.artikel z.name z.menge z.preis_eur], a.2 + z.preis_eur)) a
      = (a.1 ++ zs.map (fun z => Zeile.artikel z.name z.menge z.preis_eur),
         a.2 + (zs.map Zutat.preis_eur).sum) := by
  induction zs generalizing a with
  | nil => simp
  | cons z zs ih => simp [ih, add_assoc]

lemma foldl_gruppen (gs : List (String × List Zutat)) (acc : List Zeile × ℚ) :
    gs.foldl
      (fun (acc : List Zeile × ℚ) g =>
        g.2.foldl
          (fun (a : List Zeile × ℚ) z =>
            (a.1 ++ [Zeile.artikel z.name z.menge z.preis_eur], a.2 + z.preis_eur))
          (acc.1 ++ [Zeile.kopf (hole_icon g.1) g.1], acc.2)) acc
      = (acc.1 ++ gs.flatMap gruppenzeilen, acc.2 + (gs.map gruppensumme).sum) := by
  induction gs generalizing acc with
  | nil => simp
  | cons g gs ih =>
      rw [List.foldl_cons, ih, foldl_artikel]
      simp [gruppenzeilen, gruppensumme, add_assoc]

/-- Closed form of `erstelle_einkaufsliste`: the rows of the sorted groups
followed by the grand-total row, whose amount is the sum of group subtotals. -/
lemma einkaufsliste_eq (zutaten : List Zutat) :
    erstelle_einkaufsliste zutaten
      = (sortiere_gruppen zutaten).flatMap gruppenzeilen
        ++ [Zeile.gesamtzeile (((sortiere_gruppen zutaten).map gruppensumme).sum)] := by
  simp [erstelle_einkaufsliste, foldl_gruppen]

/-! Sum invariance: grouping and sorting do not change the total. -/

lemma summe_addZutat (gs : List (String × List Zutat)) (z : Zutat) :
    ((addZutat gs z).map gruppensumme).sum
      = (gs.map gruppensumme).sum + z.preis_eur := by
  induction gs with
  | nil => simp [addZutat, gruppensumme]
  | cons g gs ih =>
      obtain ⟨a, zs⟩ := g
      by_cases h : a = z.abteilung
      · simp [addZutat, h, gruppensumme, add_assoc, add_comm, add_left_comm]
      · simp [addZutat, h, ih, add_assoc]

lemma summe_gruppiere_aux (l : List Zutat) (acc : List (String × List Zutat)) :
    ((l.foldl addZutat acc).map gruppensumme).sum
      = (acc.map gruppensumme).sum + (l.map Zutat.preis_eur).sum := by
  induction l generalizing acc with
  | nil => simp
  | cons z l ih => simp [ih, summe_addZutat, add_assoc]

lemma summe_gruppiere (l : List Zutat) :
    ((gruppiere l).map gruppensumme).sum = (l.map Zutat.preis_eur).sum := by
  simpa using summe_gruppiere_aux l []

lemma summe_sortiert (zutaten : List Zutat) :
    ((sortiere_gruppen zutaten).map gruppensumme).sum
      = (zutaten.map Zutat.preis_eur).sum := by
  have hperm :
      ((sortiere_gruppen zutaten).map gruppensumme).Perm
        ((gruppiere zutaten).map gruppensumme) :=
    (List.mergeSort_perm (gruppiere zutaten) _).map gruppensumme
  rw [hperm.sum_eq, summe_gruppiere]

/-! Characterization of the grouping loop: bucket keys arise in first
occurrence order without duplicates, and each bucket holds exactly the
input's ingredients of its department, in input order. -/

lemma map_fst_addZutat (gs : List (String × List Zutat)) (z : Zutat) :
    (addZutat gs z).map Prod.fst =
      if z.abteilung ∈ gs.map Prod.fst then gs.map Prod.fst
      else gs.map Prod.fst ++ [z.abteilung] := by
  induction gs with
  | nil => simp [addZutat]
  | cons g gs ih =>
      obtain ⟨a, zs⟩ := g
      by_cases h : a = z.abteilung
      · simp [addZutat, h]
      · have h' : ¬ z.abteilung = a := fun hh => h hh.symm
        by_cases hm : z.abteilung ∈ gs.map Prod.fst
        · simp [addZutat, h, ih, hm, h']
        · simp [addZutat, h, ih, hm, h']

lemma mem_addZutat {gs : List (String × List Zutat)} {z : Zutat}
    {p : String × List Zutat}
    (hnd : (gs.map Prod.fst).Nodup) (hp : p ∈ addZutat gs z) :
    (p ∈ gs ∧ p.1 ≠ z.abteilung)
    ∨ (∃ zs, (z.abteilung, zs) ∈ gs ∧ p = (z.abteilung, zs ++ [z]))
    ∨ (p = (z.abteilung, [z]) ∧ z.abteilung ∉ gs.map Prod.fst) := by
  induction gs with
  | nil =>
      simp only [addZutat, List.mem_singleton] at hp
      exact Or.inr (Or.inr ⟨hp, by simp⟩)
  | cons g gs ih =>
      obtain ⟨a, zs⟩ := g
      simp only [List.map_cons, List.nodup_cons] at hnd
      obtain ⟨hna, hnd'⟩ := hnd
      by_cases h : a = z.abteilung
      · subst h
        have hadd : addZutat ((z.abteilung, zs) :: gs) z
            = (z.abteilung, zs ++ [z]) :: gs := by simp [addZutat]
        rw [hadd] at hp
        rcases List.mem_cons.mp hp with hpe | hp'
        · exact Or.inr (Or.inl ⟨zs, List.mem_cons_self _ _, hpe⟩)
        · have hp1 : p.1 ∈ gs.map Prod.fst := List.mem_map_of_mem Prod.fst hp'
          exact Or.inl ⟨List.mem_cons_of_mem _ hp', fun he => hna (he ▸ hp1)⟩
      · have hadd : addZutat ((a, zs) :: gs) z = (a, zs) :: addZutat gs z := by
          simp [addZutat, h]
        rw [hadd] at hp
        rcases List.mem_cons.mp hp with hpe | hp'
        · subst hpe
          exact Or.inl ⟨List.mem_cons_self _ _, fun hh => h hh⟩
        · rcases ih hnd' hp' with ⟨hmm, hne⟩ | ⟨zs', hmm, hpe⟩ | ⟨hpe, hnm⟩
          · exact Or.inl ⟨List.mem_cons_of_mem _ hmm, hne⟩
          · exact Or.inr (Or.inl ⟨zs', List.mem_cons_of_mem _ hmm, hpe⟩)
          · refine Or.inr (Or.inr ⟨hpe, ?_⟩)
            simp only [List.map_cons, List.mem_cons]
            rintro (hh | hh)
            · exact h hh.symm
            · exact hnm hh

lemma gruppiere_inv (l : List Zutat) :
    ((gruppiere l).map Prod.fst).Nodup
    ∧ (∀ p ∈ gruppiere l, p.2 = l.filter (fun z => decide (z.abteilung = p.1)))
    ∧ (∀ a : String, a ∈ (gruppiere l).map Prod.fst ↔ a ∈ l.map Zutat.abteilung) := by
  induction l using List.reverseRecOn with
  | nil => simp [gruppiere]
  | append_singleton l z ih =>
      obtain ⟨hnd, hfil, hmem⟩ := ih
      have hg : gruppiere (l ++ [z]) = addZutat (gruppiere l) z := by
        simp [gruppiere, List.foldl_append]
      refine ⟨?_, ?_, ?_⟩
      · rw [hg, map_fst_addZutat]
        by_cases hm : z.abteilung ∈ (gruppiere l).map Prod.fst
        · simpa [hm] using hnd
        · rw [if_neg hm]
          rw [List.nodup_append]
          refine ⟨hnd, List.nodup_singleton _, ?_⟩
          intro a ha haz
          rw [List.mem_singleton] at haz
          exact hm (haz ▸ ha)
      · intro p hp
        rw [hg] at hp
        rcases mem_addZutat hnd hp with ⟨hmm, hne⟩ | ⟨zs', hmm, hpe⟩ | ⟨hpe, hnm⟩
        · rw [hfil p hmm, List.filter_append]
          have hz1 : (List.filter (fun w => decide (w.abteilung = p.1)) [z]) = [] := by
            simp only [List.filter_cons, List.filter_nil, decide_eq_true_eq]
            rw [if_neg]
            exact fun hh => hne hh.symm
          simp [hz1]
        · subst hpe
          rw [List.filter_append]
          simp only
          rw [← hfil (z.abteilung, zs') hmm]
          simp
        · subst hpe
          have hz : z.abteilung ∉ l.map Zutat.abteilung := fun hh => hnm ((hmem _).mpr hh)
          have hfe : l.filter (fun w => decide (w.abteilung = z.abteilung)) = [] := by
            rw [List.filter_eq_nil_iff]
            intro w hw
            simp only [decide_eq_true_eq]
            intro he
            exact hz (he ▸ List.mem_map_of_mem Zutat.abteilung hw)
          rw [List.filter_append]
          simp [hfe]
      · intro a
        rw [hg, map_fst_addZutat]
        by_cases hm : z.abteilung ∈ (gruppiere l).map Prod.fst
        · rw [if_pos hm, hmem a]
          simp only [List.map_append, List.mem_append, List.map_cons,
            List.map_nil, List.mem_singleton]
          constructor
          · exact fun h => Or.inl h
          · rintro (h | h)
            · exact h
            · exact h ▸ (hmem z.abteilung).mp hm
        · rw [if_neg hm]
          simp only [List.mem_append, List.mem_singleton, List.map_append,
            List.map_cons, List.map_nil, hmem a]

/-- Each bucket of the grouping is the input filtered to its department. -/
lemma gruppiere_mem_filter {zutaten : List Zutat} {a : String} {zs : List Zutat}
    (h : (a, zs) ∈ gruppiere zutaten) :
    zs = zutaten.filter (fun z => decide (z.abteilung = a)) :=
  (gruppiere_inv zutaten).2.1 (a, zs) h

/-! Properties of the canonical sort key and the stable sort of the buckets. -/

lemma sortKey_lt_of_mem {a : String} (h : a ∈ SUPERMARKT_REIHENFOLGE) :
    sortKey a < 12 := by
  rw [sortKey, if_pos h]
  have h12 : SUPERMARKT_REIHENFOLGE.length = 12 := rfl
  exact h12 ▸ List.indexOf_lt_length.mpr h

lemma sortKey_eq_of_not_mem {a : String} (h : a ∉ SUPERMARKT_REIHENFOLGE) :
    sortKey a = 99 := by
  rw [sortKey, if_neg h]

lemma abteilungLe_trans (a b c : String × List Zutat)
    (hab : decide (sortKey a.1 ≤ sortKey b.1) = true)
    (hbc : decide (sortKey b.1 ≤ sortKey c.1) = true) :
    decide (sortKey a.1 ≤ sortKey c.1) = true := by
  simp only [decide_eq_true_eq] at hab hbc ⊢
  exact Nat.le_trans hab hbc

lemma abteilungLe_total (a b : String × List Zutat) :
    (decide (sortKey a.1 ≤ sortKey b.1) || decide (sortKey b.1 ≤ sortKey a.1)) = true := by
  rcases Nat.le_total (sortKey a.1) (sortKey b.1) with h | h <;> simp [h]

/-- The emitted bucket keys are non-decreasing in the canonical sort key. -/
lemma sortiere_pairwise (zutaten : List Zutat) :
    (sortiere_gruppen zutaten).Pairwise (fun g h => sortKey g.1 ≤ sortKey h.1) := by
  have hs := @List.sorted_mergeSort _ (fun x y => decide (sortKey x.1 ≤ sortKey y.1))
    (fun a b c => abteilungLe_trans a b c)
    (fun a b => abteilungLe_total a b) (gruppiere zutaten)
  exact hs.imp (fun h => by simpa using h)

/-- Stability at the sentinel: the unclassified buckets appear in the order
in which they arose during grouping. -/
lemma sortiere_filter_unklassifiziert (zutaten : List Zutat) :
    (sortiere_gruppen zutaten).filter
        (fun g => decide (g.1 ∉ SUPERMARKT_REIHENFOLGE))
      = (gruppiere zutaten).filter
        (fun g => decide (g.1 ∉ SUPERMARKT_REIHENFOLGE)) := by
  set p : String × List Zutat → Bool :=
    fun g => decide (g.1 ∉ SUPERMARKT_REIHENFOLGE) with hp
  have hpair : ((gruppiere zutaten).filter p).Pairwise
      (fun a b => (fun x y => decide (sortKey x.1 ≤ sortKey y.1)) a b = true) := by
    apply List.pairwise_of_forall_mem_list
    intro a ha b hb
    have ha' : a.1 ∉ SUPERMARKT_REIHENFOLGE := by
      have := (List.mem_filter.mp ha).2
      simpa [hp] using this
    have hb' : b.1 ∉ SUPERMARKT_REIHENFOLGE := by
      have := (List.mem_filter.mp hb).2
      simpa [hp] using this
    simp [sortKey_eq_of_not_mem ha', sortKey_eq_of_not_mem hb']
  have hsub : ((gruppiere zutaten).filter p).Sublist (sortiere_gruppen zutaten) :=
    List.sublist_mergeSort (fun a b c => abteilungLe_trans a b c)
      (fun a b => abteilungLe_total a b) hpair (List.filter_sublist _)
  have hsub2 : ((gruppiere zutaten).filter p).Sublist
      ((sortiere_gruppen zutaten).filter p) := by
    have hidem : ((gruppiere zutaten).filter p).filter p
        = (gruppiere zutaten).filter p :=
      List.filter_eq_self.mpr (fun a ha => (List.mem_filter.mp ha).2)
    simpa [hidem] using hsub.filter p
  have hlen : ((sortiere_gruppen zutaten).filter p).length
      = ((gruppiere zutaten).filter p).length :=
    ((List.mergeSort_perm (gruppiere zutaten) _).filter p).length_eq
  exact (hsub2.eq_of_length hlen.symm).symm

/-! Lemmas about stripping. -/

lemma dropWhile_idem (p : Char → Bool) (l : List Char) :
    (l.dropWhile p).dropWhile p = l.dropWhile p := by
  match h : l.dropWhile p with
  | [] => simp
  | c :: t =>
      have hc : p c = false := by
        have := List.head?_dropWhile_not p l
        rw [h] at this
        simpa using this
      simp [List.dropWhile_cons, hc]

lemma rstrip_rstrip (s : List Char) : rstrip (rstrip s) = rstrip s := by
  simp [rstrip, List.reverse_reverse, dropWhile_idem]

lemma rstrip_prefix (s : List Char) :
    ∃ u, s = rstrip s ++ u := by
  refine ⟨(s.reverse.takeWhile Char.isWhitespace).reverse, ?_⟩
  have h1 : (s.reverse.takeWhile Char.isWhitespace
      ++ s.reverse.dropWhile Char.isWhitespace).reverse = s := by
    rw [List.takeWhile_append_dropWhile, List.reverse_reverse]
  calc s = (s.reverse.takeWhile Char.isWhitespace
        ++ s.reverse.dropWhile Char.isWhitespace).reverse := h1.symm
    _ = rstrip s ++ (s.reverse.takeWhile Char.isWhitespace).reverse := by
        rw [List.reverse_append, rstrip]

lemma lstrip_head_not_ws {s : List Char} {c : Char} {t : List Char}
    (h : lstrip s = c :: t) : c.isWhitespace = false := by
  have := List.head?_dropWhile_not Char.isWhitespace s
  rw [lstrip] at h
  rw [h] at this
  simpa using this

lemma lstrip_strip (s : List Char) : lstrip (strip s) = strip s := by
  match h : strip s with
  | [] => simp [lstrip]
  | c :: t =>
      obtain ⟨u, hu⟩ := rstrip_prefix (lstrip s)
      rw [strip] at h
      have hl : lstrip s = c :: (t ++ u) := by rw [hu, h]; simp
      have hc := lstrip_head_not_ws hl
      simp [lstrip, List.dropWhile_cons, hc]

lemma strip_strip (s : List Char) : strip (strip s) = strip s := by
  rw [strip, lstrip_strip, strip, rstrip_rstrip]

lemma rstrip_eq_self_append {a b : List Char} (h : rstrip (a ++ b) = a ++ b) :
    rstrip b = b := by
  match hb : b.reverse with
  | [] =>
      have : b = [] := by simpa using congrArg List.reverse hb
      simp [this, rstrip]
  | c :: t =>
      have hrev : (a ++ b).reverse = c :: (t ++ a.reverse) := by
        simp [List.reverse_append, hb]
      have hdw : (a ++ b).reverse.dropWhile Char.isWhitespace = (a ++ b).reverse := by
        rw [rstrip] at h
        have := congrArg List.reverse h
        simpa [List.reverse_reverse] using this
      have hc : c.isWhitespace = false := by
        by_contra hcc
        rw [hrev, List.dropWhile_cons] at hdw
        simp only [eq_true_of_ne_false (fun hh => hcc hh)] at hdw
        have hlen := congrArg List.length hdw
        have hle := (List.dropWhile_sublist (l := t ++ a.reverse)
          (p := Char.isWhitespace)).length_le
        simp only [List.length_cons, if_true] at hlen
        omega
      rw [rstrip, hb, List.dropWhile_cons, hc]
      simp [← hb]

lemma strip_eq_nil_iff (s : List Char) :
    strip s = [] ↔ ∀ c ∈ s, c.isWhitespace = true := by
  constructor
  · intro h c hc
    have hdw : (lstrip s).reverse.dropWhile Char.isWhitespace = [] := by
      rw [strip, rstrip] at h
      have := congrArg List.reverse h
      simpa using this
    rw [List.dropWhile_eq_nil_iff] at hdw
    have hall : ∀ d ∈ lstrip s, d.isWhitespace = true := fun d hd =>
      hdw d (by simpa using hd)
    have hsplit : c ∈ s.takeWhile Char.isWhitespace ++ s.dropWhile Char.isWhitespace := by
      rw [List.takeWhile_append_dropWhile]
      exact hc
    rcases List.mem_append.mp hsplit with h1 | h2
    · exact List.mem_takeWhile_imp h1
    · exact hall c h2
  · intro h
    have hls : lstrip s = [] := by
      rw [lstrip, List.dropWhile_eq_nil_iff]
      exact h
    simp [strip, hls, rstrip]

/-! Lemmas about the numbering removal. -/

/-- Case analysis on `entferne_nummerierung`: either nothing matched, or the
input decomposes as digits, a separator and a rest, and the result is the
rest without its leading whitespace. -/
lemma entferne_cases (s : List Char) :
    entferne_nummerierung s = s
    ∨ ∃ c rest, s = s.takeWhile Char.isDigit ++ c :: rest
        ∧ s.takeWhile Char.isDigit ≠ []
        ∧ entferne_nummerierung s = rest.dropWhile Char.isWhitespace := by
  rcases hdw : s.dropWhile Char.isDigit with _ | ⟨c, rest⟩
  · left
    rw [entferne_nummerierung, hdw]
  · by_cases hcond : (s.takeWhile Char.isDigit) ≠ [] ∧ (c = '.' ∨ c = ')')
    · refine Or.inr ⟨c, rest, ?_, hcond.1, ?_⟩
      · conv_lhs => rw [← List.takeWhile_append_dropWhile
          (p := Char.isDigit) (l := s)]
        rw [hdw]
      · rw [entferne_nummerierung, hdw]
        exact if_pos hcond
    · left
      rw [entferne_nummerierung, hdw]
      exact if_neg hcond

/-- The result of removing a numbering marker from a stripped string is
still stripped. -/
lemma strip_entferne_strip (s : List Char) :
    strip (entferne_nummerierung (strip s)) = entferne_nummerierung (strip s) := by
  rcases entferne_cases (strip s) with h | ⟨c, rest, hdec, _, hres⟩
  · rw [h, strip_strip]
  · rw [hres]
    have hr1 : rstrip rest = rest := by
      have hx : rstrip ((strip s).takeWhile Char.isDigit ++ [c] ++ rest)
          = (strip s).takeWhile Char.isDigit ++ [c] ++ rest := by
        have hd : (strip s).takeWhile Char.isDigit ++ [c] ++ rest = strip s := by
          rw [List.append_assoc, List.singleton_append, ← hdec]
        rw [hd, strip, rstrip_rstrip]
      exact rstrip_eq_self_append hx
    have hr2 : rstrip (rest.dropWhile Char.isWhitespace)
        = rest.dropWhile Char.isWhitespace := by
      have hx : rstrip (rest.takeWhile Char.isWhitespace
          ++ rest.dropWhile Char.isWhitespace)
          = rest.takeWhile Char.isWhitespace ++ rest.dropWhile Char.isWhitespace := by
        rw [List.takeWhile_append_dropWhile]
        exact hr1
      exact rstrip_eq_self_append hx
    rw [strip, lstrip, dropWhile_idem, hr2]

/-- Characters of the cleaned string come from the input string. -/
lemma entferne_sublist (s : List Char) :
    (entferne_nummerierung s).Sublist s := by
  rcases entferne_cases s with h | ⟨c, rest, hdec, _, hres⟩
  · rw [h]
  · rw [hres]
    have h1 : (rest.dropWhile Char.isWhitespace).Sublist rest :=
      List.dropWhile_sublist _
    have h2 : rest.Sublist s := by
      conv_rhs => rw [hdec]
      exact (List.sublist_cons_self c rest).trans
        (List.sublist_append_right _ _)
    exact h1.trans h2

lemma strip_sublist (s : List Char) : (strip s).Sublist s := by
  have h1 : (lstrip s).Sublist s := List.dropWhile_sublist _
  have h2 : (rstrip (lstrip s)).Sublist (lstrip s) := by
    rw [rstrip]
    have := List.dropWhile_sublist (l := (lstrip s).reverse) Char.isWhitespace
    simpa using this.reverse
  exact h2.trans h1

/-! Lemmas about line splitting and joining. -/

lemma splitNL_ne_nil (s : List Char) : splitNL s ≠ [] := by
  match s with
  | [] => simp [splitNL]
  | c :: cs =>
      rw [splitNL]
      by_cases h : c = '\n'
      · simp [h]
      · rw [if_neg h]
        match hs : splitNL cs with
        | [] => simp
        | l :: ls => simp

lemma mem_splitNL_no_nl (s : List Char) : ∀ l ∈ splitNL s, '\n' ∉ l := by
  induction s with
  | nil => simp [splitNL]
  | cons c cs ih =>
      intro l hl
      rw [splitNL] at hl
      by_cases h : c = '\n'
      · rw [if_pos h] at hl
        rcases List.mem_cons.mp hl with rfl | hl'
        · simp
        · exact ih l hl'
      · rw [if_neg h] at hl
        match hs : splitNL cs with
        | [] => exact absurd hs (splitNL_ne_nil cs)
        | l0 :: ls =>
            rw [hs] at hl
            rcases List.mem_cons.mp hl with rfl | hl'
            · intro hmem
              rcases List.mem_cons.mp hmem with hc | hmem'
              · exact h hc.symm
              · exact ih l0 (hs ▸ List.mem_cons_self l0 ls) hmem'
            · exact ih l (hs ▸ List.mem_cons_of_mem l0 hl')

lemma mem_splitNL_chars (s : List Char) :
    ∀ l ∈ splitNL s, ∀ c ∈ l, c ∈ s := by
  induction s with
  | nil =>
      intro l hl c hc
      simp only [splitNL, List.mem_singleton] at hl
      subst hl
      simp at hc
  | cons d cs ih =>
      intro l hl c hc
      rw [splitNL] at hl
      by_cases h : d = '\n'
      · rw [if_pos h] at hl
        rcases List.mem_cons.mp hl with rfl | hl'
        · simp at hc
        · exact List.mem_cons_of_mem d (ih l hl' c hc)
      · rw [if_neg h] at hl
        match hs : splitNL cs with
        | [] => exact absurd hs (splitNL_ne_nil cs)
        | l0 :: ls =>
            rw [hs] at hl
            rcases List.mem_cons.mp hl with rfl | hl'
            · rcases List.mem_cons.mp hc with rfl | hc'
              · exact List.mem_cons_self c cs
              · exact List.mem_cons_of_mem d
                  (ih l0 (hs ▸ List.mem_cons_self l0 ls) c hc')
            · exact List.mem_cons_of_mem d
                (ih l (hs ▸ List.mem_cons_of_mem l0 hl') c hc)

lemma mem_splitlines (s : List Char) :
    ∀ l ∈ splitlines s, l ∈ splitNL s := by
  intro l hl
  rw [splitlines] at hl
  by_cases h : (splitNL s).getLast? = some []
  · rw [if_pos h] at hl
    exact (List.dropLast_sublist _).subset hl
  · rwa [if_neg h] at hl

/-- Joining a list of lines with a line-break character (models
`"\n".join(...)` on the normalizer's output). -/
def joinNL : List (List Char) → List Char
  | [] => []
  | [x] => x
  | x :: y :: ys => x ++ '\n' :: joinNL (y :: ys)

lemma splitNL_no_nl {x : List Char} (h : '\n' ∉ x) : splitNL x = [x] := by
  induction x with
  | nil => simp [splitNL]
  | cons c cs ih =>
      have hc : ¬ c = '\n' := fun hh => h (hh ▸ List.mem_cons_self c cs)
      have hcs : '\n' ∉ cs := fun hh => h (List.mem_cons_of_mem c hh)
      rw [splitNL, if_neg hc, ih hcs]

lemma splitNL_append_nl {x : List Char} (t : List Char) (h : '\n' ∉ x) :
    splitNL (x ++ '\n' :: t) = x :: splitNL t := by
  induction x with
  | nil => simp [splitNL]
  | cons c cs ih =>
      have hc : ¬ c = '\n' := fun hh => h (hh ▸ List.mem_cons_self c cs)
      have hcs : '\n' ∉ cs := fun hh => h (List.mem_cons_of_mem c hh)
      rw [List.cons_append, splitNL, if_neg hc, ih hcs]

lemma splitNL_joinNL {ls : List (List Char)} (hne : ls ≠ [])
    (h : ∀ l ∈ ls, '\n' ∉ l) : splitNL (joinNL ls) = ls := by
  induction ls with
  | nil => exact absurd rfl hne
  | cons x xs ih =>
      match xs with
      | [] =>
          rw [joinNL]
          exact splitNL_no_nl (h x (List.mem_cons_self x []))
      | y :: ys =>
          rw [joinNL, splitNL_append_nl _ (h x (List.mem_cons_self x _))]
          rw [ih (by simp) (fun l hl => h l (List.mem_cons_of_mem x hl))]

lemma splitlines_joinNL {ls : List (List Char)}
    (h : ∀ l ∈ ls, '\n' ∉ l ∧ l ≠ []) : splitlines (joinNL ls) = ls := by
  match ls with
  | [] => simp [joinNL, splitlines, splitNL]
  | x :: xs =>
      have hsp : splitNL (joinNL (x :: xs)) = x :: xs :=
        splitNL_joinNL (by simp) (fun l hl => (h l hl).1)
      rw [splitlines, hsp]
      have hlast : (x :: xs).getLast? ≠ some [] := by
        rw [List.getLast?_eq_getLast _ (by simp)]
        intro hh
        have := List.getLast_mem (l := x :: xs) (by simp)
        exact (h _ this).2 (by simpa using hh)
      rw [if_neg hlast]

/-! Shape lemmas for the step normalizer. -/

lemma erstelle_zubereitung_eq (t : List Char) :
    erstelle_zubereitung t
      = ((splitlines t).filter (fun l => decide (strip l ≠ []))).map
          (fun l => entferne_nummerierung (strip l)) := by
  simp only [erstelle_zubereitung, List.filter_map, List.map_map]
  rfl

lemma mem_zubereitung_schritt {t st : List Char}
    (h : st ∈ erstelle_zubereitung t) :
    ∃ l ∈ splitlines t, strip l ≠ [] ∧ st = entferne_nummerierung (strip l) := by
  rw [erstelle_zubereitung_eq] at h
  obtain ⟨l, hl, rfl⟩ := List.mem_map.mp h
  obtain ⟨hl1, hl2⟩ := List.mem_filter.mp hl
  exact ⟨l, hl1, by simpa using hl2, rfl⟩

lemma schritt_strip {t st : List Char} (h : st ∈ erstelle_zubereitung t) :
    strip st = st := by
  obtain ⟨l, _, _, rfl⟩ := mem_zubereitung_schritt h
  exact strip_entferne_strip l

lemma schritt_no_nl {t st : List Char} (h : st ∈ erstelle_zubereitung t) :
    '\n' ∉ st := by
  obtain ⟨l, hl, _, rfl⟩ := mem_zubereitung_schritt h
  have hnl : '\n' ∉ l := mem_splitNL_no_nl t l (mem_splitlines t l hl)
  intro hmem
  exact hnl (((entferne_sublist (strip l)).trans (strip_sublist l)).subset hmem)

lemma zubereitung_leer {t : List Char} (h : strip t = []) :
    erstelle_zubereitung t = [] := by
  rw [erstelle_zubereitung_eq]
  have hfil : (splitlines t).filter (fun l => decide (strip l ≠ [])) = [] := by
    rw [List.filter_eq_nil_iff]
    intro l hl
    have hws : ∀ c ∈ l, c.isWhitespace = true := fun c hc =>
      (strip_eq_nil_iff t).mp h c
        (mem_splitNL_chars t l (mem_splitlines t l hl) c hc)
    simp [(strip_eq_nil_iff l).mpr hws]
  rw [hfil, List.map_nil]

lemma zubereitung_einzeilig {t : List Char} (hnl : '\n' ∉ t)
    (hs : strip t ≠ []) :
    erstelle_zubereitung t = [entferne_nummerierung (strip t)] := by
  have hne : t ≠ [] := by
    rintro rfl
    exact hs rfl
  have hsl : splitlines t = [t] := by
    rw [splitlines, splitNL_no_nl hnl]
    have : ([t] : List (List Char)).getLast? = some t := rfl
    rw [this]
    simp [hne]
  rw [erstelle_zubereitung_eq, hsl]
  simp [hs]

/-! Schema validation. `parser = PydanticOutputParser(pydantic_object=RezeptAusgabe)`
(line 73) validates the backend payload against the models of lines 46-69:
pydantic checks that every field is present and has the declared type
(coercing an integer to a float field), but the `Field(description=...)`
declarations carry no value constraint, so no non-emptiness, sign or range
check is performed. A candidate payload field is a raw value of unknown
kind, `none` when the field is missing. -/

inductive Wert where
  | str (s : String)
  | int (i : Int)
  | num (q : ℚ)
deriving DecidableEq, Repr

structure ZutatKandidat where
  name : Option Wert
  menge : Option Wert
  abteilung : Option Wert
  preis_eur : Option Wert
deriving DecidableEq, Repr

structure RezeptKandidat where
  titel : Option Wert
  kurzbeschreibung : Option Wert
  zutaten : Option (List ZutatKandidat)
  zubereitung : Option Wert
  vorbereitungszeit : Option Wert
  kochzeit : Option Wert
  gesamtzeit : Option Wert
  portionen : Option Wert
  schwierigkeit : Option Wert
deriving DecidableEq, Repr

/-- Read a `str` field: present and a string, otherwise a violation naming
the field. -/
def leseText (feld : String) (w : Option Wert) : Except String String :=
  match w with
  | some (.str s) => .ok s
  | _ => .error feld

/-- Read a `float` field: a number, or an integer coerced to a number. -/
def leseZahl (feld : String) (w : Option Wert) : Except String ℚ :=
  match w with
  | some (.num q) => .ok q
  | some (.int i) => .ok (i : ℚ)
  | _ => .error feld

/-- Read an `int` field. -/
def leseGanzzahl (feld : String) (w : Option Wert) : Except String Int :=
  match w with
  | some (.int i) => .ok i
  | _ => .error feld

/-- Validation of one ingredient against the `Zutat` model: four typed
fields, no value constraints. -/
def validiere_zutat (k : ZutatKandidat) : Except String Zutat := do
  let n ← leseText "name" k.name
  let m ← leseText "menge" k.menge
  let a ← leseText "abteilung" k.abteilung
  let p ← leseZahl "preis_eur" k.preis_eur
  return ⟨n, m, a, p⟩

/-- Validation of the `zutaten` list field, element by element. -/
def validiere_zutaten : List ZutatKandidat → Except String (List Zutat)
  | [] => .ok []
  | k :: ks => do
      let z ← validiere_zutat k
      let zs ← validiere_zutaten ks
      return z :: zs

/-- Validation of the full payload against the `RezeptAusgabe` model:
typed fields only, again no value constraints. -/
def validiere_rezept (k : RezeptKandidat) : Except String RezeptAusgabe := do
  let t ← leseText "titel" k.titel
  let kb ← leseText "kurzbeschreibung" k.kurzbeschreibung
  let zs ← match k.zutaten with
    | some l => validiere_zutaten l
    | none => Except.error "zutaten"
  let zb ← leseText "zubereitung" k.zubereitung
  let vz ← leseGanzzahl "vorbereitungszeit" k.vorbereitungszeit
  let kz ← leseGanzzahl "kochzeit" k.kochzeit
  let gz ← leseGanzzahl "gesamtzeit" k.gesamtzeit
  let po ← leseGanzzahl "portionen" k.portionen
  let sw ← leseText "schwierigkeit" k.schwierigkeit
  return ⟨t, kb, zs, zb, vz, kz, gz, po, sw⟩

/-- Kind test for a `str` field. -/
def istText : Option Wert → Bool
  | some (.str _) => true
  | _ => false

/-- Kind test for a `float` field (an integer is accepted and coerced). -/
def istZahl : Option Wert → Bool
  | some (.num _) => true
  | some (.int _) => true
  | _ => false

/-- The well-typed candidate for a given ingredient. -/
def zutatKandidat (z : Zutat) : ZutatKandidat :=
  ⟨some (.str z.name), some (.str z.menge), some (.str z.abteilung),
   some (.num z.preis_eur)⟩

/-! The submission callback (`rezept_erstellen`, lines 348-367). The chain
invocation is an opaque fallible collaborator; a raised exception is
modelled by `Except.error` carrying `str(exc)`. The returned alert or
result view is modelled by the data it carries. -/

inductive Ansicht where
  | warnung (text : String)
  | ergebnis (rezept : RezeptAusgabe)
  | fehler (text : String)
deriving DecidableEq, Repr

/-- Python `str.strip()` on a `str` value. -/
def stripStr (s : String) : String :=
  (strip s.toList).asString

/-- The `try`/`except` block of lines 359-367: a successful chain result is
rendered via `erstelle_ergebnis`, any raised exception becomes the danger
alert carrying the exception text. -/
def verarbeite_antwort (r : Except String RezeptAusgabe) : Ansicht :=
  match r with
  | .ok rezept => .ergebnis rezept
  | .error exc => .fehler ("Fehler beim Abrufen des Rezepts: " ++ exc)

/-- The callback body (lines 355-367): `gericht` is the raw input value
(`None` or a string); blank input returns the warning alert before the
chain is invoked, any other input reaches `chain.invoke` with the stripped
dish name. -/
def rezept_erstellen (chainInvoke : String → Except String RezeptAusgabe)
    (gericht : Option String) : Ansicht :=
  match gericht with
  | none => .warnung "Bitte geben Sie zunächst ein Gericht ein."
  | some g =>
      if stripStr g = "" then .warnung "Bitte geben Sie zunächst ein Gericht ein."
      else verarbeite_antwort (chainInvoke (stripStr g))

/-! Concrete demo data used by witnesses and counterexamples. -/

def mehl : Zutat := ⟨"Mehl", "1 kg", "Backwaren", 1⟩

def zucker : Zutat := ⟨"Zucker", "500 g", "Backwaren", 2⟩

def cola : Zutat := ⟨"Cola", "1 l", "Getränke", 5⟩

/-- The numeric amount a rendered row carries, if any: the price of an
article row or the amount of the grand-total row. -/
def zeilenbetrag : Zeile → Option ℚ
  | .artikel _ _ p => some p
  | .gesamtzeile g => some g
  | .kopf _ _ => none

/-! Claim theorems. -/

/-- C1: for every ingredient sequence the grand total emitted at the end of
the shopping list equals the sum of all ingredients' `preis_eur` values
regardless of grouping (the amounts are equal exactly, hence agree at any
display precision, in particular at the two decimal places used for
display), and the empty ingredient list yields an empty group sequence and
a zero total rather than an error. -/
theorem einkaufsliste_gesamtsumme (zutaten : List Zutat) :
    (erstelle_einkaufsliste zutaten).getLast?
      = some (Zeile.gesamtzeile ((zutaten.map Zutat.preis_eur).sum))
    ∧ erstelle_einkaufsliste [] = [Zeile.gesamtzeile 0]
    ∧ sortiere_gruppen [] = [] := by
  refine ⟨?_, ?_, ?_⟩
  · rw [einkaufsliste_eq, List.getLast?_concat, summe_sortiert]
  · rw [einkaufsliste_eq]
    simp [sortiere_gruppen, gruppiere]
  · simp [sortiere_gruppen, gruppiere]

/-- C2: the emitted group sequence is non-decreasing in the canonical sort
key (index in the 12-entry walk-order list, else the sentinel 99, which
exceeds every canonical index), every group after an unclassified group is
itself unclassified (so unclassified groups come strictly after all
classified ones), and the unclassified groups keep the relative order in
which their buckets arose during grouping. -/
theorem einkaufsliste_reihenfolge (zutaten : List Zutat) :
    (sortiere_gruppen zutaten).Pairwise (fun g h => sortKey g.1 ≤ sortKey h.1)
    ∧ (sortiere_gruppen zutaten).Pairwise
        (fun g h => g.1 ∉ SUPERMARKT_REIHENFOLGE → h.1 ∉ SUPERMARKT_REIHENFOLGE)
    ∧ (sortiere_gruppen zutaten).filter
          (fun g => decide (g.1 ∉ SUPERMARKT_REIHENFOLGE))
        = (gruppiere zutaten).filter
          (fun g => decide (g.1 ∉ SUPERMARKT_REIHENFOLGE))
    ∧ SUPERMARKT_REIHENFOLGE.length = 12
    ∧ (∀ a, a ∈ SUPERMARKT_REIHENFOLGE → sortKey a < 12)
    ∧ (∀ a, a ∉ SUPERMARKT_REIHENFOLGE → sortKey a = 99) := by
  refine ⟨sortiere_pairwise zutaten, ?_, sortiere_filter_unklassifiziert zutaten,
    rfl, fun a ha => sortKey_lt_of_mem ha, fun a ha => sortKey_eq_of_not_mem ha⟩
  refine (sortiere_pairwise zutaten).imp ?_
  intro a b hle hga
  intro hb
  rw [sortKey_eq_of_not_mem hga] at hle
  have := sortKey_lt_of_mem hb
  omega

/-- Witness for C2: the hypotheses of the key-bound conjuncts hold at
concrete departments. -/
theorem einkaufsliste_reihenfolge_zeuge :
    sortKey "Backwaren" < 12 ∧ sortKey "Exotische Gewürze" = 99 :=
  ⟨(einkaufsliste_reihenfolge []).2.2.2.2.1 "Backwaren" (by decide),
   (einkaufsliste_reihenfolge []).2.2.2.2.2 "Exotische Gewürze" (by decide)⟩

/-- C3: grouping is stable — every department group emitted by the sorted
shopping list holds exactly the input's ingredients of that department, in
input order (it equals the input filtered to that department). -/
theorem einkaufsliste_stabile_gruppierung (zutaten : List Zutat) (a : String)
    (zs : List Zutat) (h : (a, zs) ∈ sortiere_gruppen zutaten) :
    zs = zutaten.filter (fun z => decide (z.abteilung = a)) := by
  have hmem : (a, zs) ∈ gruppiere zutaten :=
    (List.mergeSort_perm (gruppiere zutaten) _).subset h
  exact gruppiere_mem_filter hmem

/-- Witness for C3 at a concrete ingredient list whose departments
interleave. -/
theorem einkaufsliste_stabile_gruppierung_zeuge :
    ([mehl, zucker] : List Zutat)
      = ([mehl, cola, zucker] : List Zutat).filter
          (fun z => decide (z.abteilung = "Backwaren")) := by
  have hsg : sortiere_gruppen [mehl, cola, zucker]
      = [("Backwaren", [mehl, zucker]), ("Getränke", [cola])] := by
    simp [sortiere_gruppen, gruppiere, addZutat, mehl, cola, zucker,
      List.mergeSort, sortKey, SUPERMARKT_REIHENFOLGE, List.indexOf,
      List.findIdx, List.findIdx.go]
  exact einkaufsliste_stabile_gruppierung [mehl, cola, zucker] "Backwaren"
    [mehl, zucker] (hsg ▸ List.mem_cons_self _ _)

/-- C4 (amended): the organizer emits, in order, one header row carrying
each department and its icon followed by that group's items with their
individual prices, then a single grand-total row; the grand total equals
the sum over the groups of the group subtotal (sum of `preis_eur` over the
group's items), but the per-group subtotals themselves are not part of the
output. -/
theorem einkaufsliste_struktur (zutaten : List Zutat) :
    erstelle_einkaufsliste zutaten
      = (sortiere_gruppen zutaten).flatMap gruppenzeilen
        ++ [Zeile.gesamtzeile (((sortiere_gruppen zutaten).map gruppensumme).sum)]
    ∧ ((sortiere_gruppen zutaten).map gruppensumme).sum
        = (zutaten.map Zutat.preis_eur).sum :=
  ⟨einkaufsliste_eq zutaten, summe_sortiert zutaten⟩

/-- Counterexample to C4 as stated: at a concrete input the Backwaren group
has subtotal 3, but the numeric amounts carried by the emitted rows are
exactly the item prices 1, 2, 5 and the grand total 8 — no emitted row
carries the subtotal 3, so the output contains no per-group subtotal. -/
theorem einkaufsliste_ohne_zwischensumme :
    sortiere_gruppen [mehl, cola, zucker]
      = [("Backwaren", [mehl, zucker]), ("Getränke", [cola])]
    ∧ gruppensumme ("Backwaren", [mehl, zucker]) = 3
    ∧ (erstelle_einkaufsliste [mehl, cola, zucker]).filterMap zeilenbetrag
        = [1, 2, 5, 8]
    ∧ (3 : ℚ) ∉ ([1, 2, 5, 8] : List ℚ) := by
  refine ⟨?_, ?_, ?_, by decide⟩
  · simp [sortiere_gruppen, gruppiere, addZutat, mehl, cola, zucker,
      List.mergeSort, sortKey, SUPERMARKT_REIHENFOLGE, List.indexOf,
      List.findIdx, List.findIdx.go]
  · simp [gruppensumme, mehl, zucker]
    norm_num
  · simp [erstelle_einkaufsliste, sortiere_gruppen, gruppiere, addZutat,
      mehl, cola, zucker, List.mergeSort, sortKey, SUPERMARKT_REIHENFOLGE,
      List.indexOf, List.findIdx, List.findIdx.go, hole_icon,
      ABTEILUNG_ICONS, List.lookup, zeilenbetrag]
    norm_num

/-- Counterexample to C5 as stated: the line `"1."` consists of a numbering
marker alone, so its normalized step is the empty string; re-running the
normalizer on the re-joined output drops that empty step, so the second run
differs from the first. -/
theorem zubereitung_nicht_idempotent :
    erstelle_zubereitung (String.toList "1.\nFoo")
      = [[], String.toList "Foo"]
    ∧ erstelle_zubereitung (joinNL (erstelle_zubereitung (String.toList "1.\nFoo")))
      = [String.toList "Foo"]
    ∧ erstelle_zubereitung (joinNL (erstelle_zubereitung (String.toList "1.\nFoo")))
      ≠ erstelle_zubereitung (String.toList "1.\nFoo") := by
  refine ⟨by decide, by decide, by decide⟩

/-- C5 (amended): the normalizer is idempotent on its own re-joined output
provided no first-run step is empty and no first-run step still begins with
a numbering marker (both can happen: a line that is a marker alone yields
the empty step, and a doubly numbered line keeps its second marker). -/
theorem zubereitung_idempotent_bedingt (t : List Char)
    (h : ∀ st ∈ erstelle_zubereitung t,
        st ≠ [] ∧ entferne_nummerierung st = st) :
    erstelle_zubereitung (joinNL (erstelle_zubereitung t))
      = erstelle_zubereitung t := by
  have hsl : splitlines (joinNL (erstelle_zubereitung t))
      = erstelle_zubereitung t :=
    splitlines_joinNL (fun l hl => ⟨schritt_no_nl hl, (h l hl).1⟩)
  rw [erstelle_zubereitung_eq, hsl]
  have hstrip : ∀ l ∈ erstelle_zubereitung t, strip l = l :=
    fun l hl => schritt_strip hl
  have hfil : (erstelle_zubereitung t).filter (fun l => decide (strip l ≠ []))
      = erstelle_zubereitung t := by
    rw [List.filter_eq_self]
    intro l hl
    simp [hstrip l hl, (h l hl).1]
  rw [hfil]
  have hmap : ∀ l ∈ erstelle_zubereitung t,
      entferne_nummerierung (strip l) = l := by
    intro l hl
    rw [hstrip l hl]
    exact (h l hl).2
  calc (erstelle_zubereitung t).map (fun l => entferne_nummerierung (strip l))
      = (erstelle_zubereitung t).map id := List.map_congr_left hmap
    _ = erstelle_zubereitung t := List.map_id _

/-- Witness for C5 (amended) at a concrete two-step text. -/
theorem zubereitung_idempotent_bedingt_zeuge :
    erstelle_zubereitung
        (joinNL (erstelle_zubereitung (String.toList "1. Kochen\n2) Servieren")))
      = erstelle_zubereitung (String.toList "1. Kochen\n2) Servieren") :=
  zubereitung_idempotent_bedingt (String.toList "1. Kochen\n2) Servieren")
    (by decide)

/-- The Step Normalizer as the claim's words describe it: split on line
breaks, drop lines that are empty after trimming (but do not trim them),
remove at most one leading numbering marker matched only at the very start
of the line, and preserve the remaining text of the line exactly, with no
further trimming. Stated for comparison with `erstelle_zubereitung`. -/
def zubereitung_laut_spezifikation (zubereitung : List Char) : List (List Char) :=
  ((splitlines zubereitung).filter (fun l => decide (strip l ≠ []))).map
    entferne_nummerierung

/-- Counterexample to C6 as stated: on the line `"  1. Foo  "` the code
first strips the whole line and then removes the marker, emitting `"Foo"`,
while the claim's reading (marker matched only at the start of the raw
line, remaining text preserved exactly) would emit the line unchanged. -/
theorem zubereitung_stutzt_zeilen :
    erstelle_zubereitung (String.toList "  1. Foo  ")
      = [String.toList "Foo"]
    ∧ zubereitung_laut_spezifikation (String.toList "  1. Foo  ")
      = [String.toList "  1. Foo  "]
    ∧ erstelle_zubereitung (String.toList "  1. Foo  ")
      ≠ zubereitung_laut_spezifikation (String.toList "  1. Foo  ") := by
  refine ⟨by decide, by decide, by decide⟩

/-- C6 (amended): the normalizer splits on line breaks, drops lines that
are empty after trimming, trims each remaining line and then removes at
most one leading numbering marker, keeping the rest of the trimmed line
unchanged; an empty or all-whitespace blob yields the empty sequence, and a
non-blank blob without line breaks yields a single-step sequence. -/
theorem zubereitung_normalisierung (t : List Char) :
    erstelle_zubereitung t
      = ((splitlines t).filter (fun l => decide (strip l ≠ []))).map
          (fun l => entferne_nummerierung (strip l))
    ∧ (strip t = [] → erstelle_zubereitung t = [])
    ∧ ('\n' ∉ t → strip t ≠ [] →
        erstelle_zubereitung t = [entferne_nummerierung (strip t)]) :=
  ⟨erstelle_zubereitung_eq t, fun h => zubereitung_leer h,
   fun h1 h2 => zubereitung_einzeilig h1 h2⟩

/-- Witness for C6 (amended): the whitespace-only blob and the single-line
blob, with the hypotheses discharged concretely. -/
theorem zubereitung_normalisierung_zeuge :
    erstelle_zubereitung (String.toList "   ") = []
    ∧ erstelle_zubereitung (String.toList "2) Umrühren")
      = [entferne_nummerierung (strip (String.toList "2) Umrühren"))] :=
  ⟨(zubereitung_normalisierung (String.toList "   ")).2.1 (by decide),
   (zubereitung_normalisierung (String.toList "2) Umrühren")).2.2
     (by decide) (by decide)⟩

/-- C10: each emitted step is the corresponding non-blank line with leading
and trailing whitespace stripped first and then at most one numbering
marker removed; consequently every emitted step carries no leading or
trailing whitespace, and a numbering marker preceded only by whitespace is
still stripped. -/
theorem zubereitung_zeilenweise (t : List Char) :
    erstelle_zubereitung t
      = ((splitlines t).filter (fun l => decide (strip l ≠ []))).map
          (fun l => entferne_nummerierung (strip l))
    ∧ (∀ st ∈ erstelle_zubereitung t, strip st = st)
    ∧ erstelle_zubereitung (String.toList "  1. Foo") = [String.toList "Foo"] :=
  ⟨erstelle_zubereitung_eq t, fun st h => schritt_strip h, by decide⟩

/-- Witness for C10: a concrete emitted step is already stripped. -/
theorem zubereitung_zeilenweise_zeuge :
    strip (String.toList "Foo") = String.toList "Foo" :=
  (zubereitung_zeilenweise (String.toList "1. Foo")).2.1
    (String.toList "Foo") (by decide)

/-- A well-typed `zutaten` list field validates to its ingredients. -/
lemma validiere_zutaten_map (zs : List Zutat) :
    validiere_zutaten (zs.map zutatKandidat) = .ok zs := by
  induction zs with
  | nil => rfl
  | cons z zs ih =>
      simp only [List.map_cons, validiere_zutaten, validiere_zutat,
        zutatKandidat, leseText, leseZahl, bind, Except.bind, pure,
        Except.pure, ih]

/-- A payload violating every value constraint of the claim: empty title,
negative price, negative preparation and total minutes, zero servings. -/
def schlechter_kandidat : RezeptKandidat :=
  ⟨some (.str ""), some (.str "Lecker"),
   some [⟨some (.str "Mehl"), some (.str "1 kg"), some (.str "Backwaren"),
     some (.num (-1))⟩],
   some (.str "Rühren"), some (.int (-5)), some (.int 10), some (.int (-2)),
   some (.int 0), some (.str "Einfach")⟩

/-- Counterexample to C7 as stated: the validator accepts a payload whose
title is empty after trimming, whose ingredient price is negative, whose
preparation and total minutes are negative and whose servings are below 1,
instead of failing. -/
theorem validiere_akzeptiert_verletzungen :
    validiere_rezept schlechter_kandidat
      = .ok ⟨"", "Lecker", [⟨"Mehl", "1 kg", "Backwaren", -1⟩], "Rühren",
          -5, 10, -2, 0, "Einfach"⟩
    ∧ ("" : String) = ""
    ∧ (-1 : ℚ) < 0 ∧ (-5 : Int) < 0 ∧ (-2 : Int) < 0 ∧ (0 : Int) < 1 := by
  refine ⟨rfl, rfl, by norm_num, by decide, by decide, by decide⟩

/-- C7 (amended): the validator produces a typed recipe or fails with an
error naming the offending field, but it checks only field presence and
type: any well-typed payload is accepted regardless of its values (empty
texts, negative prices, negative minutes and non-positive servings
included), and a failure always names a missing or wrongly typed field. -/
theorem validiere_nur_typen :
    (∀ k : ZutatKandidat, (validiere_zutat k).isOk
        = (istText k.name && istText k.menge && istText k.abteilung
           && istZahl k.preis_eur))
    ∧ (∀ (n m a : String) (p : ℚ),
        validiere_zutat ⟨some (.str n), some (.str m), some (.str a),
            some (.num p)⟩
          = .ok ⟨n, m, a, p⟩)
    ∧ (∀ (t kb zb sw : String) (zs : List Zutat) (vz kz gz po : Int),
        validiere_rezept ⟨some (.str t), some (.str kb),
            some (zs.map zutatKandidat), some (.str zb), some (.int vz),
            some (.int kz), some (.int gz), some (.int po), some (.str sw)⟩
          = .ok ⟨t, kb, zs, zb, vz, kz, gz, po, sw⟩)
    ∧ (∀ (k : ZutatKandidat) (e : String), validiere_zutat k = .error e →
        (e = "name" ∧ istText k.name = false)
        ∨ (e = "menge" ∧ istText k.menge = false)
        ∨ (e = "abteilung" ∧ istText k.abteilung = false)
        ∨ (e = "preis_eur" ∧ istZahl k.preis_eur = false)) := by
  refine ⟨?_, ?_, ?_, ?_⟩
  · intro k
    obtain ⟨n, m, a, p⟩ := k
    rcases n with _ | (⟨s1⟩ | ⟨i1⟩ | ⟨q1⟩) <;>
    rcases m with _ | (⟨s2⟩ | ⟨i2⟩ | ⟨q2⟩) <;>
    rcases a with _ | (⟨s3⟩ | ⟨i3⟩ | ⟨q3⟩) <;>
    rcases p with _ | (⟨s4⟩ | ⟨i4⟩ | ⟨q4⟩) <;>
    rfl
  · intro n m a p
    rfl
  · intro t kb zb sw zs vz kz gz po
    simp only [validiere_rezept, leseText, leseZahl, leseGanzzahl, bind,
      Except.bind, pure, Except.pure, validiere_zutaten_map]
  · intro k e h
    obtain ⟨n, m, a, p⟩ := k
    rcases n with _ | (⟨s1⟩ | ⟨i1⟩ | ⟨q1⟩) <;>
    rcases m with _ | (⟨s2⟩ | ⟨i2⟩ | ⟨q2⟩) <;>
    rcases a with _ | (⟨s3⟩ | ⟨i3⟩ | ⟨q3⟩) <;>
    rcases p with _ | (⟨s4⟩ | ⟨i4⟩ | ⟨q4⟩) <;>
    simp_all [validiere_zutat, leseText, leseZahl, istText, istZahl, bind,
      Except.bind, pure, Except.pure]

/-- Witness for C7 (amended): a missing name field is reported by name. -/
theorem validiere_nur_typen_zeuge :
    ("name" = "name"
      ∧ istText (ZutatKandidat.mk none (some (.str "1 kg"))
          (some (.str "Backwaren")) (some (.num 1))).name = false)
    ∨ ("name" = "menge"
      ∧ istText (ZutatKandidat.mk none (some (.str "1 kg"))
          (some (.str "Backwaren")) (some (.num 1))).menge = false)
    ∨ ("name" = "abteilung"
      ∧ istText (ZutatKandidat.mk none (some (.str "1 kg"))
          (some (.str "Backwaren")) (some (.num 1))).abteilung = false)
    ∨ ("name" = "preis_eur"
      ∧ istZahl (ZutatKandidat.mk none (some (.str "1 kg"))
          (some (.str "Backwaren")) (some (.num 1))).preis_eur = false) := by
  have h := validiere_nur_typen.2.2.2
    (ZutatKandidat.mk none (some (.str "1 kg")) (some (.str "Backwaren"))
      (some (.num 1))) "name" rfl
  rcases h with ⟨h1, h2⟩ | ⟨h1, h2⟩ | ⟨h1, h2⟩ | ⟨h1, h2⟩
  · exact Or.inl ⟨h1, h2⟩
  · exact Or.inr (Or.inl ⟨h1, h2⟩)
  · exact Or.inr (Or.inr (Or.inl ⟨h1, h2⟩))
  · exact Or.inr (Or.inr (Or.inr ⟨h1, h2⟩))

/-- C8: any exception raised by the chain invocation — backend failure or
validation failure alike — is caught and turned into the one danger-alert
shape carrying the exception's text; the callback always returns one of the
three typed views (warning, full result, error alert), never an escaped
exception and never partial data. -/
theorem rezept_erstellen_fehlerkanal :
    (∀ (f : String → Except String RezeptAusgabe) (g e : String),
        stripStr g ≠ "" → f (stripStr g) = Except.error e →
        rezept_erstellen f (some g)
          = Ansicht.fehler ("Fehler beim Abrufen des Rezepts: " ++ e))
    ∧ (∀ (f : String → Except String RezeptAusgabe) (gericht : Option String),
        rezept_erstellen f gericht
            = Ansicht.warnung "Bitte geben Sie zunächst ein Gericht ein."
        ∨ (∃ r, rezept_erstellen f gericht = Ansicht.ergebnis r)
        ∨ (∃ e, rezept_erstellen f gericht
            = Ansicht.fehler ("Fehler beim Abrufen des Rezepts: " ++ e))) := by
  constructor
  · intro f g e h1 h2
    simp [rezept_erstellen, if_neg h1, h2, verarbeite_antwort]
  · intro f gericht
    match gericht with
    | none => exact Or.inl rfl
    | some g =>
        by_cases h : stripStr g = ""
        · exact Or.inl (by simp [rezept_erstellen, h])
        · match hr : f (stripStr g) with
          | .ok r =>
              exact Or.inr (Or.inl ⟨r, by
                simp [rezept_erstellen, h, hr, verarbeite_antwort]⟩)
          | .error e =>
              exact Or.inr (Or.inr ⟨e, by
                simp [rezept_erstellen, h, hr, verarbeite_antwort]⟩)

/-- Witness for C8: a backend transport error surfaces as the unified error
alert carrying its message. -/
theorem rezept_erstellen_fehlerkanal_zeuge :
    rezept_erstellen (fun _ => Except.error "Netzwerkfehler") (some "Pizza")
      = Ansicht.fehler ("Fehler beim Abrufen des Rezepts: " ++ "Netzwerkfehler") :=
  rezept_erstellen_fehlerkanal.1 (fun _ => Except.error "Netzwerkfehler")
    "Pizza" "Netzwerkfehler" (by decide) rfl

/-- C9: missing, empty or whitespace-only input yields the warning alert
and the backend is never invoked (the result does not depend on the
backend); extraction is invoked exactly on the stripped dish name, which is
then non-empty and already stripped. -/
theorem rezept_erstellen_randbehandlung :
    (∀ f : String → Except String RezeptAusgabe, rezept_erstellen f none
        = Ansicht.warnung "Bitte geben Sie zunächst ein Gericht ein.")
    ∧ (∀ (f : String → Except String RezeptAusgabe) (g : String),
        stripStr g = "" → rezept_erstellen f (some g)
          = Ansicht.warnung "Bitte geben Sie zunächst ein Gericht ein.")
    ∧ (∀ (f₁ f₂ : String → Except String RezeptAusgabe) (g : String),
        stripStr g = "" →
        rezept_erstellen f₁ (some g) = rezept_erstellen f₂ (some g))
    ∧ (∀ (f : String → Except String RezeptAusgabe) (g : String),
        stripStr g ≠ "" →
        rezept_erstellen f (some g) = verarbeite_antwort (f (stripStr g)))
    ∧ (∀ g : String, stripStr (stripStr g) = stripStr g) := by
  refine ⟨fun f => rfl, ?_, ?_, ?_, ?_⟩
  · intro f g h
    simp [rezept_erstellen, h]
  · intro f₁ f₂ g h
    simp [rezept_erstellen, h]
  · intro f g h
    simp [rezept_erstellen, if_neg h]
  · intro g
    rw [stripStr, stripStr]
    have hti : ((strip g.toList).asString).toList = strip g.toList := rfl
    rw [hti, strip_strip]

/-- Witness for C9: whitespace-only input warns without consulting the
backend, and non-blank input reaches the backend with its stripped name. -/
theorem rezept_erstellen_randbehandlung_zeuge :
    rezept_erstellen (fun _ => Except.error "x") (some "   ")
      = Ansicht.warnung "Bitte geben Sie zunächst ein Gericht ein."
    ∧ rezept_erstellen (fun _ => Except.error "x") (some " Pizza ")
      = verarbeite_antwort ((fun _ => Except.error "x") (stripStr " Pizza ")) :=
  ⟨rezept_erstellen_randbehandlung.2.1 (fun _ => Except.error "x") "   "
      (by decide),
   rezept_erstellen_randbehandlung.2.2.2.1 (fun _ => Except.error "x")
     " Pizza " (by decide)⟩

end RecipeApp
